import Mathlib

/-!
Shallow embedding of `examples/offline-Q-learning/replay_memory.py` (class
`ReplayMemory`) and proofs about it.

Modelling conventions:
* a state frame (`uint8` array of shape `state_shape`) is a flattened
  `List Nat`; `state_shape` is the flattened element count;
* numpy dtypes (`uint8`, `int32`, `float32`) are modelled as exact `Nat`/`Int`
  values: no claim under verification depends on width truncation or float
  rounding, and the spec's caller contract fixes frame dtype to `uint8`;
* the four parallel numpy arrays of length `max_size` are `List`s of length
  `max_size`, indexed with `getD`;
* `collections.deque(maxlen = m)` is a `List` (oldest first) kept at length
  at most `m` by dropping from the front;
* `np.random.randint(high)` draws are passed in explicitly: a draw is a `Nat`
  `r` together with the fact `r < high`;
* `int(max_size * 0.8)` and `int(max_size * 0.2)` are modelled as the exact
  floors `8 * n / 10` and `2 * n / 10`;
* numpy's `x % 0 = 0` convention for integer arrays is modelled by `npMod`;
* the `np.savez` container is modelled as a typed record holding the seven
  saved objects in their saved order.
-/

namespace ReplayMemorySpec

/-- A flattened state frame. -/
abbrev Frame := List Nat

/-- The all-zero frame of a given (flattened) shape, `np.zeros(state_shape)`. -/
def zeroFrame (shape : Nat) : Frame := List.replicate shape 0

/-- `Experience = namedtuple('Experience', ['state', 'action', 'reward', 'isOver'])`. -/
structure Experience where
  state : Frame
  action : Int
  reward : Int
  isOver : Bool
deriving DecidableEq, Repr

instance : Inhabited Experience := ⟨⟨[], 0, 0, false⟩⟩

/-- The `ReplayMemory` object: four parallel arrays plus bookkeeping fields,
mirroring `__init__`'s attribute layout (`_context` is the deque, oldest
element first). -/
structure ReplayMemory where
  max_size : Nat
  state_shape : Nat
  context_len : Nat
  state : List Frame
  action : List Int
  reward : List Int
  isOver : List Bool
  curr_size : Nat
  curr_pos : Nat
  context : List Experience
deriving DecidableEq, Repr

/-- Fresh construction (the non-loading branch of `__init__`): zero-filled
arrays, `_curr_size = 0`, `_curr_pos = 0`, empty deque of
`maxlen = context_len - 1`. -/
def init (max_size state_shape context_len : Nat) : ReplayMemory :=
  { max_size := max_size
    state_shape := state_shape
    context_len := context_len
    state := List.replicate max_size (zeroFrame state_shape)
    action := List.replicate max_size 0
    reward := List.replicate max_size 0
    isOver := List.replicate max_size false
    curr_size := 0
    curr_pos := 0
    context := [] }

/-- Append to a `deque(maxlen := m)`: push on the right, dropping from the
left whatever exceeds `m` (also covers rebuilding a deque from a too-long
iterable, which keeps the rightmost `m` elements). -/
def dequePush (m : Nat) (q : List Experience) (e : Experience) : List Experience :=
  (q ++ [e]).drop (q.length + 1 - m)

/-- `_assign(pos, exp)`: write the four fields of `exp` into slot `pos`. -/
def assign (b : ReplayMemory) (pos : Nat) (exp : Experience) : ReplayMemory :=
  { b with
    state := b.state.set pos exp.state
    reward := b.reward.set pos exp.reward
    action := b.action.set pos exp.action
    isOver := b.isOver.set pos exp.isOver }

/-- `append(exp)`: `_assign` at `_curr_pos` (both branches of the size test
assign; the `if` only gates the size increment), advance `_curr_pos` modulo
`max_size`, then clear the deque on a terminal experience or push onto it
otherwise. -/
def append (b : ReplayMemory) (exp : Experience) : ReplayMemory :=
  let b1 := assign b b.curr_pos exp
  let b2 := { b1 with
    curr_size := if b.curr_size < b.max_size then b.curr_size + 1 else b.curr_size }
  let b3 := { b2 with curr_pos := (b2.curr_pos + 1) % b2.max_size }
  { b3 with
    context := if exp.isOver then [] else dequePush (b3.context_len - 1) b3.context exp }

/-- Run a sequence of `append` calls (the producer loop). -/
def runAppends (b : ReplayMemory) (exps : List Experience) : ReplayMemory :=
  exps.foldl append b

/-- A reachable buffer state: fresh construction followed by a sequence of
appends. -/
def reachAppend (cap shape cl : Nat) (exps : List Experience) : ReplayMemory :=
  runAppends (init cap shape cl) exps

/-- `recent_state()`: `maxlen - len(context)` zero frames followed by the
states of the deque in chronological order. -/
def recent_state (b : ReplayMemory) : List Frame :=
  List.replicate ((b.context_len - 1) - b.context.length) (zeroFrame b.state_shape)
    ++ b.context.map (fun e => e.state)

/-- `size()` (and `__len__`): the current element count. -/
def size (b : ReplayMemory) : Nat := b.curr_size

/-- numpy integer remainder: ordinary mathematical remainder for a positive
modulus, and `0` when the modulus is `0` (numpy integer arrays yield `0`
on `% 0`). -/
def npMod (x : Int) (n : Nat) : Nat :=
  if n = 0 then 0 else (x % (n : Int)).toNat

/-- The window position map of `sample(idx)`:
`state_idx[k] = (idx + k) % _curr_size`. -/
def windowIdx (b : ReplayMemory) (idx : Int) (k : Nat) : Nat :=
  npMod (idx + (k : Int)) b.curr_size

/-- The stored `isOver` flag seen at window position `k` of `sample(idx)`. -/
def windowFlag (b : ReplayMemory) (idx : Int) (k : Nat) : Bool :=
  b.isOver.getD (windowIdx b idx k) false

/-- The stored frame at array slot `i`. -/
def storedFrame (b : ReplayMemory) (i : Nat) : Frame :=
  b.state.getD i (zeroFrame b.state_shape)

/-- The backward scan `for k in range(context_len - 2, -1, -1)` of `sample`:
`scanBoundary b f (m + 1)` checks position `m` first and recurses downward,
returning the first (largest) `k` whose stored `isOver` flag is set, exactly
where the Python loop breaks.  Called with `m = context_len - 1`, so the
scanned positions are `context_len - 2, ..., 0`. -/
def scanBoundary (b : ReplayMemory) (f : Nat → Nat) : Nat → Option Nat
  | 0 => none
  | Nat.succ k => if b.isOver.getD (f k) false then some k else scanBoundary b f k

/-- Result of `sample`, in the source's return order:
`return state, reward, action, isOver`. -/
abbrev SampleOut := List Frame × Int × Int × Bool

/-- Body of `sample` once the window map `f` and `real_idx` are fixed: the
result stack starts as `np.zeros((context_len + 1,) + state_shape)`; if the
backward scan finds a boundary at `k`, only positions after `k` receive
stored frames (`state[k+1:] = self.state[state_idx]` on the truncated
`state_idx`), otherwise the whole stack is the raw stored frames. -/
def sampleCore (b : ReplayMemory) (f : Nat → Nat) (real : Nat) : SampleOut :=
  let st : List Frame :=
    match scanBoundary b f (b.context_len - 1) with
    | some k =>
        (List.range (b.context_len + 1)).map
          (fun j => if j ≤ k then zeroFrame b.state_shape else b.state.getD (f j) (zeroFrame b.state_shape))
    | none =>
        (List.range (b.context_len + 1)).map
          (fun j => b.state.getD (f j) (zeroFrame b.state_shape))
  (st, b.reward.getD real 0, b.action.getD real 0, b.isOver.getD real false)

/-- `sample(idx)`: window positions `(idx + k) % _curr_size` for
`k = 0 .. context_len`, and `real_idx = (idx + context_len - 1) % _curr_size`
for the returned `reward`, `action`, `isOver`. -/
def sample (b : ReplayMemory) (idx : Int) : SampleOut :=
  sampleCore b (windowIdx b idx) (npMod (idx + (b.context_len : Int) - 1) b.curr_size)

/-- Result of `_process_batch`: `[state, action, reward, isOver]`. -/
abbrev BatchOut := List (List Frame) × List Int × List Int × List Bool

/-- `_process_batch`: stack the per-sample results; note the output order is
state, action, reward, isOver while each `sample` tuple is
state, reward, action, isOver. -/
def process_batch (batch : List SampleOut) : BatchOut :=
  (batch.map (fun e => e.1),
   batch.map (fun e => e.2.2.1),
   batch.map (fun e => e.2.1),
   batch.map (fun e => e.2.2.2))

/-- `int(max_size * 0.8)`, as the exact floor. -/
def pct80 (n : Nat) : Nat := 8 * n / 10

/-- `int(max_size * 0.2)`, as the exact floor. -/
def pct20 (n : Nat) : Nat := 2 * n / 10

/-- Exclusive upper bound of the `np.random.randint` draw in `sample_batch`:
`int(max_size * 0.8) - context_len - 1`. -/
def trainRandHigh (b : ReplayMemory) : Int :=
  (pct80 b.max_size : Int) - (b.context_len : Int) - 1

/-- Exclusive upper bound of the `np.random.randint` draw in
`sample_test_batch`: `int(max_size * 0.2) - context_len - 1`. -/
def testRandHigh (b : ReplayMemory) : Int :=
  (pct20 b.max_size : Int) - (b.context_len : Int) - 1

/-- The buffer index `sample_batch` uses for raw draw `r`: the draw itself. -/
def trainIdx (_b : ReplayMemory) (r : Nat) : Int := (r : Int)

/-- The buffer index `sample_test_batch` uses for raw draw `r`:
the draw shifted up by `int(max_size * 0.8)`. -/
def testIdx (b : ReplayMemory) (r : Nat) : Int :=
  (r : Int) + (pct80 b.max_size : Int)

/-- `sample_batch(batch_size)` with the random draws made explicit. -/
def sample_batch (b : ReplayMemory) (draws : List Nat) : BatchOut :=
  process_batch (draws.map (fun r => sample b (trainIdx b r)))

/-- `sample_test_batch(batch_size)` with the random draws made explicit. -/
def sample_test_batch (b : ReplayMemory) (draws : List Nat) : BatchOut :=
  process_batch (draws.map (fun r => sample b (testIdx b r)))

/-- The `np.savez` container: the seven saved objects in their saved order. -/
structure MemoryContainer where
  state : List Frame
  reward : List Int
  action : List Int
  isOver : List Bool
  curr_size : Nat
  curr_pos : Nat
  context : List Experience
deriving DecidableEq, Repr

/-- `save_memory()`: pack the seven fields. -/
def save_memory (b : ReplayMemory) : MemoryContainer :=
  { state := b.state
    reward := b.reward
    action := b.action
    isOver := b.isOver
    curr_size := b.curr_size
    curr_pos := b.curr_pos
    context := b.context }

/-- `load_memory()`: unpack the seven fields into the buffer; the deque is
rebuilt with `deque(rows, maxlen = context_len - 1)`, which keeps only the
rightmost `context_len - 1` entries of an over-long persisted window.  No
field or shape validation is performed. -/
def load_memory (b : ReplayMemory) (c : MemoryContainer) : ReplayMemory :=
  { b with
    state := c.state
    reward := c.reward
    action := c.action
    isOver := c.isOver
    curr_size := c.curr_size
    curr_pos := c.curr_pos
    context := c.context.drop (c.context.length - (b.context_len - 1)) }

/-- State-passing form of `sample`: the method assigns no attribute of
`self` (the zeroed stack it fills is a local array), so the buffer component
passes through. -/
def sampleOp (b : ReplayMemory) (idx : Int) : ReplayMemory × SampleOut :=
  (b, sample b idx)

/-- State-passing form of `recent_state` (no attribute assignment). -/
def recentStateOp (b : ReplayMemory) : ReplayMemory × List Frame :=
  (b, recent_state b)

/-- State-passing form of `size` (no attribute assignment). -/
def sizeOp (b : ReplayMemory) : ReplayMemory × Nat :=
  (b, size b)

/-- State-passing form of `sample_batch` (no attribute assignment). -/
def sampleBatchOp (b : ReplayMemory) (draws : List Nat) : ReplayMemory × BatchOut :=
  (b, sample_batch b draws)

/-- State-passing form of `sample_test_batch` (no attribute assignment). -/
def sampleTestBatchOp (b : ReplayMemory) (draws : List Nat) : ReplayMemory × BatchOut :=
  (b, sample_test_batch b draws)

/-- The spec's concrete scenario, as an experience stream: state `[i]`,
distinct `action`/`reward` sentinels, terminal exactly at state 5. -/
def expEx (i : Nat) : Experience :=
  { state := [i], action := (i : Int), reward := 2 * (i : Int) + 1, isOver := decide (i = 5) }

/-- capacity 10, frame shape (1,), context length 4, states 0..9 appended,
`isOver` true exactly at state 5. -/
def bEx : ReplayMemory :=
  runAppends (init 10 1 4) ((List.range 10).map expEx)

/-- A persisted container whose recency window holds 4 experiences, one more
than the `context_len - 1 = 3` bound of a context length 4 buffer. -/
def cEx : MemoryContainer :=
  { state := List.replicate 10 [1]
    reward := List.replicate 10 0
    action := List.replicate 10 0
    isOver := List.replicate 10 false
    curr_size := 10
    curr_pos := 0
    context := [expEx 1, expEx 2, expEx 3, expEx 4] }

/-! ### Helper lemmas -/

lemma getD_set_self {α : Type} (l : List α) (i : Nat) (a d : α) (h : i < l.length) :
    (l.set i a).getD i d = a := by
  simp [List.getD_eq_getElem?_getD, List.getElem?_set_self, h]

lemma getD_set_ne {α : Type} (l : List α) (i j : Nat) (a d : α) (h : i ≠ j) :
    (l.set i a).getD j d = l.getD j d := by
  simp [List.getD_eq_getElem?_getD, List.getElem?_set_ne, h]

lemma getD_append_left {α : Type} (l l2 : List α) (d : α) (n : Nat) (h : n < l.length) :
    (l ++ l2).getD n d = l.getD n d := by
  simp [List.getD_eq_getElem?_getD, List.getElem?_append, h]

lemma getD_concat_length {α : Type} (l : List α) (a d : α) :
    (l ++ [a]).getD l.length d = a := by
  simp [List.getD_eq_getElem?_getD, List.getElem?_concat_length]

lemma runAppends_nil (b : ReplayMemory) : runAppends b [] = b := rfl

lemma runAppends_cons (b : ReplayMemory) (e : Experience) (es : List Experience) :
    runAppends b (e :: es) = runAppends (append b e) es := rfl

lemma runAppends_concat (b : ReplayMemory) (es : List Experience) (e : Experience) :
    runAppends b (es ++ [e]) = append (runAppends b es) e := by
  simp [runAppends]

lemma append_max_size (b : ReplayMemory) (e : Experience) :
    (append b e).max_size = b.max_size := rfl

lemma append_context_len (b : ReplayMemory) (e : Experience) :
    (append b e).context_len = b.context_len := rfl

lemma append_state_shape (b : ReplayMemory) (e : Experience) :
    (append b e).state_shape = b.state_shape := rfl

lemma runAppends_max_size (es : List Experience) :
    ∀ b : ReplayMemory, (runAppends b es).max_size = b.max_size := by
  induction es with
  | nil => intro b; rfl
  | cons e es ih => intro b; rw [runAppends_cons, ih, append_max_size]

lemma runAppends_context_len (es : List Experience) :
    ∀ b : ReplayMemory, (runAppends b es).context_len = b.context_len := by
  induction es with
  | nil => intro b; rfl
  | cons e es ih => intro b; rw [runAppends_cons, ih, append_context_len]

lemma runAppends_state_shape (es : List Experience) :
    ∀ b : ReplayMemory, (runAppends b es).state_shape = b.state_shape := by
  induction es with
  | nil => intro b; rfl
  | cons e es ih => intro b; rw [runAppends_cons, ih, append_state_shape]

lemma append_array_lengths (b : ReplayMemory) (e : Experience) :
    (append b e).state.length = b.state.length ∧
    (append b e).action.length = b.action.length ∧
    (append b e).reward.length = b.reward.length ∧
    (append b e).isOver.length = b.isOver.length := by
  simp [append, assign]

lemma runAppends_array_lengths (es : List Experience) :
    ∀ b : ReplayMemory,
      (runAppends b es).state.length = b.state.length ∧
      (runAppends b es).action.length = b.action.length ∧
      (runAppends b es).reward.length = b.reward.length ∧
      (runAppends b es).isOver.length = b.isOver.length := by
  induction es with
  | nil => intro b; exact ⟨rfl, rfl, rfl, rfl⟩
  | cons e es ih =>
      intro b
      rw [runAppends_cons]
      obtain ⟨h1, h2, h3, h4⟩ := ih (append b e)
      obtain ⟨g1, g2, g3, g4⟩ := append_array_lengths b e
      exact ⟨h1.trans g1, h2.trans g2, h3.trans g3, h4.trans g4⟩

lemma append_curr_size (b : ReplayMemory) (e : Experience) (h : b.curr_size ≤ b.max_size) :
    (append b e).curr_size = min (b.curr_size + 1) b.max_size := by
  show (if b.curr_size < b.max_size then b.curr_size + 1 else b.curr_size) = _
  split <;> omega

lemma runAppends_curr_size (es : List Experience) :
    ∀ b : ReplayMemory, b.curr_size ≤ b.max_size →
      (runAppends b es).curr_size = min (b.curr_size + es.length) b.max_size := by
  induction es with
  | nil => intro b h; simp [runAppends_nil]; omega
  | cons e es ih =>
      intro b h
      rw [runAppends_cons, ih (append b e) (by rw [append_curr_size b e h, append_max_size]; omega),
        append_curr_size b e h, append_max_size]
      simp [List.length_cons]
      omega

lemma append_curr_pos (b : ReplayMemory) (e : Experience) :
    (append b e).curr_pos = (b.curr_pos + 1) % b.max_size := rfl

lemma runAppends_curr_pos (es : List Experience) :
    ∀ b : ReplayMemory, 0 < b.max_size → b.curr_pos < b.max_size →
      (runAppends b es).curr_pos = (b.curr_pos + es.length) % b.max_size := by
  induction es with
  | nil =>
      intro b h0 h1
      rw [runAppends_nil]
      simp [Nat.mod_eq_of_lt h1]
  | cons e es ih =>
      intro b h0 h1
      rw [runAppends_cons,
        ih (append b e) (by rw [append_max_size]; exact h0)
          (by rw [append_curr_pos, append_max_size]; exact Nat.mod_lt _ h0),
        append_curr_pos, append_max_size, Nat.mod_add_mod, List.length_cons]
      congr 1
      omega

lemma append_state (b : ReplayMemory) (e : Experience) :
    (append b e).state = b.state.set b.curr_pos e.state := rfl

lemma append_action (b : ReplayMemory) (e : Experience) :
    (append b e).action = b.action.set b.curr_pos e.action := rfl

lemma append_reward (b : ReplayMemory) (e : Experience) :
    (append b e).reward = b.reward.set b.curr_pos e.reward := rfl

lemma append_isOver (b : ReplayMemory) (e : Experience) :
    (append b e).isOver = b.isOver.set b.curr_pos e.isOver := rfl

lemma mod_ne_of_between (cap j L : Nat) (hj : j < L) (hL : L < j + cap) :
    j % cap ≠ L % cap := by
  intro h
  have hdvd : cap ∣ L - j := (Nat.modEq_iff_dvd' (Nat.le_of_lt hj)).mp h
  have := Nat.le_of_dvd (by omega) hdvd
  omega

/-- Core of capacity saturation: among any run of appends from a fresh
buffer, each of the most recent `cap` appended experiences (append number `j`
with `exps.length ≤ j + cap`) sits, field by field, in array slot
`j % cap`. -/
lemma runAppends_slot (cap shape cl : Nat) (hcap : 0 < cap) (exps : List Experience) :
    ∀ j : Nat, j < exps.length → exps.length ≤ j + cap →
      ((runAppends (init cap shape cl) exps).state.getD (j % cap) (zeroFrame shape)
          = (exps.getD j default).state
        ∧ (runAppends (init cap shape cl) exps).action.getD (j % cap) 0
          = (exps.getD j default).action
        ∧ (runAppends (init cap shape cl) exps).reward.getD (j % cap) 0
          = (exps.getD j default).reward
        ∧ (runAppends (init cap shape cl) exps).isOver.getD (j % cap) false
          = (exps.getD j default).isOver) := by
  induction exps using List.reverseRecOn with
  | nil => intro j hj _; simp at hj
  | append_singleton es e ih =>
      intro j hj hwin
      rw [runAppends_concat]
      have hpos : (runAppends (init cap shape cl) es).curr_pos = es.length % cap := by
        rw [runAppends_curr_pos es (init cap shape cl) (by simpa [init] using hcap)
          (by simpa [init] using hcap)]
        simp [init]
      obtain ⟨hls, hla, hlr, hlo⟩ := runAppends_array_lengths es (init cap shape cl)
      have hslen : (runAppends (init cap shape cl) es).state.length = cap := by
        rw [hls]; simp [init]
      have halen : (runAppends (init cap shape cl) es).action.length = cap := by
        rw [hla]; simp [init]
      have hrlen : (runAppends (init cap shape cl) es).reward.length = cap := by
        rw [hlr]; simp [init]
      have holen : (runAppends (init cap shape cl) es).isOver.length = cap := by
        rw [hlo]; simp [init]
      rw [List.length_append, List.length_singleton] at hj hwin
      by_cases hje : j = es.length
      · subst hje
        rw [append_state, append_action, append_reward, append_isOver, hpos,
          getD_concat_length]
        refine ⟨getD_set_self _ _ _ _ ?_, getD_set_self _ _ _ _ ?_,
          getD_set_self _ _ _ _ ?_, getD_set_self _ _ _ _ ?_⟩
        · rw [hslen]; exact Nat.mod_lt _ hcap
        · rw [halen]; exact Nat.mod_lt _ hcap
        · rw [hrlen]; exact Nat.mod_lt _ hcap
        · rw [holen]; exact Nat.mod_lt _ hcap
      · have hj2 : j < es.length := by omega
        have hne : j % cap ≠ (runAppends (init cap shape cl) es).curr_pos := by
          rw [hpos]
          exact mod_ne_of_between cap j es.length hj2 (by omega)
        rw [append_state, append_action, append_reward, append_isOver,
          getD_append_left _ _ _ _ hj2,
          getD_set_ne _ _ _ _ _ (fun h => hne h.symm),
          getD_set_ne _ _ _ _ _ (fun h => hne h.symm),
          getD_set_ne _ _ _ _ _ (fun h => hne h.symm),
          getD_set_ne _ _ _ _ _ (fun h => hne h.symm)]
        exact ih j hj2 (by omega)

/-- The recency-window invariant is preserved by any run of appends: no
terminal experience inside, and at most `context_len - 1` entries. -/
lemma runAppends_context_inv (es : List Experience) :
    ∀ b : ReplayMemory, (∀ e ∈ b.context, e.isOver = false) →
      b.context.length ≤ b.context_len - 1 →
      ((∀ e ∈ (runAppends b es).context, e.isOver = false) ∧
        (runAppends b es).context.length ≤ (runAppends b es).context_len - 1) := by
  induction es with
  | nil => intro b h1 h2; exact ⟨h1, h2⟩
  | cons e es ih =>
      intro b h1 h2
      rw [runAppends_cons]
      by_cases he : e.isOver = true
      · have hctx : (append b e).context = [] := by simp [append, he]
        exact ih (append b e) (by rw [hctx]; intro x hx; simp at hx) (by rw [hctx]; simp)
      · have hctx : (append b e).context = dequePush (b.context_len - 1) b.context e := by
          simp [append, assign, he]
        apply ih (append b e)
        · intro x hx
          rw [hctx, dequePush] at hx
          rcases List.mem_append.mp (List.drop_subset _ _ hx) with h | h
          · exact h1 x h
          · rw [List.mem_singleton] at h
            subst h
            simpa using he
        · rw [hctx, append_context_len, dequePush, List.length_drop, List.length_append,
            List.length_singleton]
          omega

lemma scanBoundary_eq_none (b : ReplayMemory) (f : Nat → Nat) :
    ∀ m : Nat, (∀ k, k < m → b.isOver.getD (f k) false = false) →
      scanBoundary b f m = none := by
  intro m
  induction m with
  | zero => intro _; rfl
  | succ m ih =>
      intro h
      rw [scanBoundary, h m (by omega)]
      exact ih (fun k hk => h k (by omega))

lemma scanBoundary_eq_some (b : ReplayMemory) (f : Nat → Nat) :
    ∀ m K : Nat, K < m → b.isOver.getD (f K) false = true →
      (∀ k, K < k → k < m → b.isOver.getD (f k) false = false) →
      scanBoundary b f m = some K := by
  intro m
  induction m with
  | zero => intro K h; omega
  | succ m ih =>
      intro K hK hflag habove
      by_cases hKm : K = m
      · subst hKm
        rw [scanBoundary, hflag]
        rfl
      · rw [scanBoundary, habove m (by omega) (by omega)]
        exact ih K (by omega) hflag (fun k h1 h2 => habove k h1 (by omega))

/-! ### Claim theorems -/

/-- Claim C2: after appending `capacity + k` experiences to a fresh buffer,
`size()` returns `capacity`, and each of the most recent `capacity` appended
experiences (append number `j` with `k ≤ j < capacity + k`) occupies array
slot `j % capacity` in all four storage arrays — the oldest appends having
been overwritten first. -/
theorem capacity_saturation (cap shape cl k : Nat) (exps : List Experience)
    (hcap : 0 < cap) (hlen : exps.length = cap + k) :
    size (reachAppend cap shape cl exps) = cap ∧
    ∀ j : Nat, k ≤ j → j < cap + k →
      ((reachAppend cap shape cl exps).state.getD (j % cap) (zeroFrame shape)
          = (exps.getD j default).state
        ∧ (reachAppend cap shape cl exps).action.getD (j % cap) 0
          = (exps.getD j default).action
        ∧ (reachAppend cap shape cl exps).reward.getD (j % cap) 0
          = (exps.getD j default).reward
        ∧ (reachAppend cap shape cl exps).isOver.getD (j % cap) false
          = (exps.getD j default).isOver) := by
  constructor
  · show (runAppends (init cap shape cl) exps).curr_size = cap
    rw [runAppends_curr_size exps (init cap shape cl) (by simp [init])]
    simp only [init, hlen]
    omega
  · intro j hj1 hj2
    exact runAppends_slot cap shape cl hcap exps j (by omega) (by omega)

/-- Witness for C2 at capacity 2, three appends: the buffer saturates at
size 2 and slot `2 % 2 = 0` holds the third appended experience. -/
theorem capacity_saturation_witness :
    0 < 2 ∧ [expEx 0, expEx 1, expEx 2].length = 2 + 1 ∧
    size (reachAppend 2 1 4 [expEx 0, expEx 1, expEx 2]) = 2 ∧
    (reachAppend 2 1 4 [expEx 0, expEx 1, expEx 2]).state.getD (2 % 2) (zeroFrame 1)
      = ([expEx 0, expEx 1, expEx 2].getD 2 default).state := by
  refine ⟨by decide, by decide, ?_, ?_⟩
  · exact (capacity_saturation 2 1 4 1 [expEx 0, expEx 1, expEx 2] (by decide) (by decide)).1
  · exact ((capacity_saturation 2 1 4 1 [expEx 0, expEx 1, expEx 2] (by decide)
      (by decide)).2 2 (by decide) (by decide)).1

/-- Claim C3: on every reachable buffer state the recency window contains no
terminal experience and at most `context_len - 1` entries; appending a
terminal experience empties it, appending a non-terminal experience pushes it
(dropping the oldest entry when the window is already full). -/
theorem recency_window_invariant (cap shape cl : Nat) (exps : List Experience) :
    (∀ e ∈ (reachAppend cap shape cl exps).context, e.isOver = false) ∧
    (reachAppend cap shape cl exps).context.length ≤ cl - 1 ∧
    (∀ ex : Experience, ex.isOver = true →
      (append (reachAppend cap shape cl exps) ex).context = []) ∧
    (∀ ex : Experience, ex.isOver = false →
      (reachAppend cap shape cl exps).context.length + 1 ≤ cl - 1 →
      (append (reachAppend cap shape cl exps) ex).context
        = (reachAppend cap shape cl exps).context ++ [ex]) ∧
    (∀ ex : Experience, ex.isOver = false →
      (reachAppend cap shape cl exps).context.length = cl - 1 →
      (append (reachAppend cap shape cl exps) ex).context
        = ((reachAppend cap shape cl exps).context ++ [ex]).drop 1) := by
  have hinv := runAppends_context_inv exps (init cap shape cl)
    (by intro e he; simp [init] at he) (by simp [init])
  have hcl : (runAppends (init cap shape cl) exps).context_len = cl := by
    rw [runAppends_context_len]
    simp [init]
  simp only [reachAppend]
  refine ⟨hinv.1, by have := hinv.2; rwa [hcl] at this, ?_, ?_, ?_⟩
  · intro ex hex
    simp [append, assign, hex]
  · intro ex hex hlen
    have h1 : (append (runAppends (init cap shape cl) exps) ex).context
        = dequePush (cl - 1) (runAppends (init cap shape cl) exps).context ex := by
      simp [append, assign, hex, hcl]
    rw [h1, dequePush, Nat.sub_eq_zero_of_le hlen, List.drop_zero]
  · intro ex hex hlen
    have h1 : (append (runAppends (init cap shape cl) exps) ex).context
        = dequePush (cl - 1) (runAppends (init cap shape cl) exps).context ex := by
      simp [append, assign, hex, hcl]
    have h2 : (runAppends (init cap shape cl) exps).context.length + 1 - (cl - 1) = 1 := by
      omega
    rw [h1, dequePush, h2]

/-- Witness for C3: after two non-terminal appends with `context_len = 3`
the window is full; a further non-terminal append evicts the oldest entry,
and a terminal append empties the window. -/
theorem recency_window_invariant_witness :
    (expEx 2).isOver = false ∧
    (reachAppend 5 1 3 [expEx 0, expEx 1]).context.length = 3 - 1 ∧
    (append (reachAppend 5 1 3 [expEx 0, expEx 1]) (expEx 2)).context
      = ((reachAppend 5 1 3 [expEx 0, expEx 1]).context ++ [expEx 2]).drop 1 ∧
    (expEx 5).isOver = true ∧
    (append (reachAppend 5 1 3 [expEx 0, expEx 1]) (expEx 5)).context = [] := by
  refine ⟨by decide, by decide, ?_, by decide, ?_⟩
  · exact (recency_window_invariant 5 1 3 [expEx 0, expEx 1]).2.2.2.2 (expEx 2)
      (by decide) (by decide)
  · exact (recency_window_invariant 5 1 3 [expEx 0, expEx 1]).2.2.1 (expEx 5) (by decide)

/-- Claim C1: `sample(idx)` reads the window positions `(idx + k) % curr_size`
for `k = 0 .. context_len`; scanning backward over positions
`context_len - 2 .. 0`, if the most recent scanned position with a stored
`isOver` flag is `K`, every window position at or before `K` is an all-zero
frame in the result and every later position holds the stored frame
unchanged; with no flagged scanned position the result is the raw stored
frames. -/
theorem sample_window_masking (b : ReplayMemory) (idx : Nat)
    (h0 : 0 < b.curr_size) (h1 : idx < b.curr_size) :
    ((∀ k : Nat, k + 2 ≤ b.context_len → windowFlag b (idx : Int) k = false) →
      (sample b (idx : Int)).1
        = (List.range (b.context_len + 1)).map
            (fun j => storedFrame b (windowIdx b (idx : Int) j)))
    ∧ (∀ K : Nat, K + 2 ≤ b.context_len → windowFlag b (idx : Int) K = true →
        (∀ k : Nat, K < k → k + 2 ≤ b.context_len → windowFlag b (idx : Int) k = false) →
        (sample b (idx : Int)).1
          = (List.range (b.context_len + 1)).map
              (fun j => if j ≤ K then zeroFrame b.state_shape
                else storedFrame b (windowIdx b (idx : Int) j))) := by
  constructor
  · intro h
    have hnone : scanBoundary b (windowIdx b (idx : Int)) (b.context_len - 1) = none :=
      scanBoundary_eq_none b _ _ (fun k hk => h k (by omega))
    simp only [sample, sampleCore, hnone]
    rfl
  · intro K hK hflag habove
    have hsome : scanBoundary b (windowIdx b (idx : Int)) (b.context_len - 1) = some K :=
      scanBoundary_eq_some b _ _ K (by omega) hflag
        (fun k hk1 hk2 => habove k hk1 (by omega))
    simp only [sample, sampleCore, hsome]
    rfl

/-- Witness for C1 on the spec's concrete scenario (capacity 10, context
length 4, terminal flag at state 5, `idx = 3`): positions 0..2 of the window
are zeroed and positions 3..4 keep the stored frames `[6]`, `[7]`. -/
theorem sample_window_masking_witness :
    0 < bEx.curr_size ∧ 3 < bEx.curr_size ∧ windowFlag bEx ((3 : Nat) : Int) 2 = true ∧
    (sample bEx ((3 : Nat) : Int)).1 = [[0], [0], [0], [6], [7]] := by
  refine ⟨by decide, by decide, by decide, ?_⟩
  have hcl4 : bEx.context_len = 4 := by decide
  have h := (sample_window_masking bEx 3 (by decide) (by decide)).2 2 (by decide)
    (by decide) (fun k hk1 hk2 => absurd hk1 (by rw [hcl4] at hk2; omega))
  rw [h]
  decide

/-- Counterexample to C4: the claim's tuple order is
`(stackedStates, action, reward, isOver)`, but on the concrete buffer `bEx`
the second component of `sample(0)` is not the stored action at
`real_idx = (0 + context_len - 1) % curr_size` (it is the stored reward). -/
theorem sample_tuple_order_cex :
    (sample bEx 0).2.1
      ≠ bEx.action.getD (npMod ((0 : Int) + (bEx.context_len : Int) - 1) bEx.curr_size) 0 := by
  decide

/-- Claim C4 (amended): `sample(idx)` returns the tuple
`(stackedStates, reward, action, isOver)` — reward before action — where the
reward, action and isOver are the values stored at logical position
`(idx + context_len - 1) % curr_size`. -/
theorem sample_tuple_fields (b : ReplayMemory) (idx : Nat)
    (h0 : 0 < b.curr_size) (h1 : idx < b.curr_size) :
    (sample b (idx : Int)).2.1
        = b.reward.getD (npMod ((idx : Int) + (b.context_len : Int) - 1) b.curr_size) 0 ∧
    (sample b (idx : Int)).2.2.1
        = b.action.getD (npMod ((idx : Int) + (b.context_len : Int) - 1) b.curr_size) 0 ∧
    (sample b (idx : Int)).2.2.2
        = b.isOver.getD (npMod ((idx : Int) + (b.context_len : Int) - 1) b.curr_size) false :=
  ⟨rfl, rfl, rfl⟩

/-- Witness for the amended C4 on `bEx` at `idx = 0`. -/
theorem sample_tuple_fields_witness :
    0 < bEx.curr_size ∧
    (sample bEx 0).2.1
      = bEx.reward.getD (npMod ((0 : Int) + (bEx.context_len : Int) - 1) bEx.curr_size) 0 :=
  ⟨by decide, (sample_tuple_fields bEx 0 (by decide) (by decide)).1⟩

/-- Counterexample to C5: `recent_state()` on a fresh buffer with context
length 4 returns 3 frames, not `context_len = 4` frames. -/
theorem recent_state_length_cex :
    ¬ (recent_state (init 10 1 4)).length = (init 10 1 4).context_len := by
  decide

/-- Claim C5 (amended): on every reachable buffer state `recent_state()`
returns exactly `context_len - 1` frames: zero-filled placeholders for any
shortfall at the start, followed by the recency window's frames in
chronological order. -/
theorem recent_state_spec (cap shape cl : Nat) (exps : List Experience) :
    (recent_state (reachAppend cap shape cl exps)).length = cl - 1 ∧
    recent_state (reachAppend cap shape cl exps)
      = List.replicate ((cl - 1) - (reachAppend cap shape cl exps).context.length)
          (zeroFrame shape)
        ++ (reachAppend cap shape cl exps).context.map (fun e => e.state) := by
  have hinv := (runAppends_context_inv exps (init cap shape cl)
    (by intro e he; simp [init] at he) (by simp [init])).2
  have hcl : (runAppends (init cap shape cl) exps).context_len = cl := by
    rw [runAppends_context_len]
    simp [init]
  have hsh : (runAppends (init cap shape cl) exps).state_shape = shape := by
    rw [runAppends_state_shape]
    simp [init]
  rw [hcl] at hinv
  simp only [reachAppend, recent_state, hcl, hsh]
  constructor
  · rw [List.length_append, List.length_replicate, List.length_map]
    omega
  · trivial

/-- Counterexample to C6: on the concrete buffer `bEx` (`curr_size = 10`),
`sample(99)` with `99` far outside `[0, 10)` raises nothing and silently
returns the same result as `sample(9)`. -/
theorem sample_no_error_cex : sample bEx 99 = sample bEx 9 := by
  decide

/-- Claim C6 (amended): `sample(idx)` never signals an out-of-range error:
for any integer `idx` (and `curr_size > 0`) every access is reduced modulo
`curr_size`, so the call silently returns the result of the in-range index
`idx % curr_size`. -/
theorem sample_wraps_mod (b : ReplayMemory) (idx : Int) (h : 0 < b.curr_size) :
    sample b idx = sample b ((npMod idx b.curr_size : Nat) : Int) ∧
    npMod idx b.curr_size < b.curr_size := by
  have hne : (b.curr_size : Int) ≠ 0 := Int.natCast_ne_zero.mpr h.ne'
  have hcast : ((npMod idx b.curr_size : Nat) : Int) = idx % (b.curr_size : Int) := by
    rw [npMod, if_neg h.ne']
    exact Int.toNat_of_nonneg (Int.emod_nonneg idx hne)
  constructor
  · have hf : windowIdx b ((npMod idx b.curr_size : Nat) : Int) = windowIdx b idx := by
      funext k
      rw [windowIdx, windowIdx, hcast, npMod, npMod, if_neg h.ne', if_neg h.ne']
      congr 1
      exact Int.ModEq.add_right _ (Int.emod_emod_of_dvd idx dvd_rfl)
    have hreal : npMod (((npMod idx b.curr_size : Nat) : Int) + (b.context_len : Int) - 1)
          b.curr_size
        = npMod (idx + (b.context_len : Int) - 1) b.curr_size := by
      rw [hcast, npMod, npMod, if_neg h.ne', if_neg h.ne']
      congr 1
      exact Int.ModEq.sub_right 1
        (Int.ModEq.add_right _ (Int.emod_emod_of_dvd idx dvd_rfl))
    rw [sample, sample, hf, hreal]
  · rw [npMod, if_neg h.ne']
    have h1 : idx % (b.curr_size : Int) < (b.curr_size : Int) :=
      Int.emod_lt_of_pos idx (by exact_mod_cast h)
    have h2 : 0 ≤ idx % (b.curr_size : Int) := Int.emod_nonneg idx hne
    omega

/-- Witness for the amended C6 on `bEx` at the out-of-range index 99. -/
theorem sample_wraps_mod_witness :
    0 < bEx.curr_size ∧
    sample bEx 99 = sample bEx ((npMod 99 bEx.curr_size : Nat) : Int) ∧
    npMod 99 bEx.curr_size < bEx.curr_size :=
  ⟨by decide, (sample_wraps_mod bEx 99 (by decide)).1, (sample_wraps_mod bEx 99 (by decide)).2⟩

/-- Claim C7: every index `sample_batch` can draw lies in
`[0, int(0.8 * capacity) - context_len - 1)`, inside the lower 80% range, and
every index `sample_test_batch` can draw lies at or above
`int(0.8 * capacity)` and below
`int(0.8 * capacity) + int(0.2 * capacity) - context_len - 1`; both ranges are
shortened by `context_len + 1` and are disjoint. -/
theorem batch_ranges_disjoint (b : ReplayMemory) (r s : Nat)
    (hr : (r : Int) < trainRandHigh b) (hs : (s : Int) < testRandHigh b) :
    0 ≤ trainIdx b r ∧
    trainIdx b r < (pct80 b.max_size : Int) - (b.context_len : Int) - 1 ∧
    (pct80 b.max_size : Int) ≤ testIdx b s ∧
    testIdx b s
      < (pct80 b.max_size : Int) + ((pct20 b.max_size : Int) - (b.context_len : Int) - 1) ∧
    trainIdx b r ≠ testIdx b s := by
  rw [trainRandHigh] at hr
  rw [testRandHigh] at hs
  refine ⟨?_, ?_, ?_, ?_, ?_⟩ <;> simp only [trainIdx, testIdx] <;> omega

/-- Witness for C7: capacity 100, context length 4; the training draw 10 and
the test draw 3 give the disjoint indices 10 and 83. -/
theorem batch_ranges_disjoint_witness :
    (10 : Int) < trainRandHigh (init 100 1 4) ∧
    (3 : Int) < testRandHigh (init 100 1 4) ∧
    trainIdx (init 100 1 4) 10 ≠ testIdx (init 100 1 4) 3 :=
  ⟨by decide, by decide,
    (batch_ranges_disjoint (init 100 1 4) 10 3 (by decide) (by decide)).2.2.2.2⟩

/-- Claim C8: `save_memory` followed by `load_memory` into a fresh buffer of
the same parameters reproduces the original's `size()`, write cursor, all
four storage arrays, and recency window, for every reachable buffer state. -/
theorem save_load_roundtrip (cap shape cl : Nat) (exps : List Experience) :
    size (load_memory (init cap shape cl) (save_memory (reachAppend cap shape cl exps)))
      = size (reachAppend cap shape cl exps) ∧
    (load_memory (init cap shape cl) (save_memory (reachAppend cap shape cl exps))).curr_pos
      = (reachAppend cap shape cl exps).curr_pos ∧
    (load_memory (init cap shape cl) (save_memory (reachAppend cap shape cl exps))).state
      = (reachAppend cap shape cl exps).state ∧
    (load_memory (init cap shape cl) (save_memory (reachAppend cap shape cl exps))).action
      = (reachAppend cap shape cl exps).action ∧
    (load_memory (init cap shape cl) (save_memory (reachAppend cap shape cl exps))).reward
      = (reachAppend cap shape cl exps).reward ∧
    (load_memory (init cap shape cl) (save_memory (reachAppend cap shape cl exps))).isOver
      = (reachAppend cap shape cl exps).isOver ∧
    (load_memory (init cap shape cl) (save_memory (reachAppend cap shape cl exps))).context
      = (reachAppend cap shape cl exps).context := by
  refine ⟨rfl, rfl, rfl, rfl, rfl, rfl, ?_⟩
  have hinv := (runAppends_context_inv exps (init cap shape cl)
    (by intro e he; simp [init] at he) (by simp [init])).2
  have hcl : (runAppends (init cap shape cl) exps).context_len = cl := by
    rw [runAppends_context_len]
    simp [init]
  rw [hcl] at hinv
  show (reachAppend cap shape cl exps).context.drop
      ((reachAppend cap shape cl exps).context.length - (cl - 1))
    = (reachAppend cap shape cl exps).context
  have h0 : (reachAppend cap shape cl exps).context.length - (cl - 1) = 0 := by
    simp only [reachAppend]
    omega
  rw [h0, List.drop_zero]

/-- Counterexample to C9: loading the container `cEx`, whose persisted
recency window has 4 entries against the bound `context_len - 1 = 3`, signals
no error: it returns normally, modifies the buffer, and silently truncates
the window by dropping its oldest entry. -/
theorem load_truncates_cex :
    (init 10 1 4).context_len - 1 < cEx.context.length ∧
    load_memory (init 10 1 4) cEx ≠ init 10 1 4 ∧
    (load_memory (init 10 1 4) cEx).context = cEx.context.drop 1 := by
  refine ⟨by decide, by decide, by decide⟩

/-- Claim C9 (amended): `load_memory` performs no validation: every container
is accepted, each buffer field is replaced by the container's value, and a
persisted recency window longer than `context_len - 1` is silently truncated
to its most recent `context_len - 1` entries instead of signalling a
corrupt-state error. -/
theorem load_no_validation (b : ReplayMemory) (c : MemoryContainer) :
    (load_memory b c).state = c.state ∧
    (load_memory b c).reward = c.reward ∧
    (load_memory b c).action = c.action ∧
    (load_memory b c).isOver = c.isOver ∧
    (load_memory b c).curr_size = c.curr_size ∧
    (load_memory b c).curr_pos = c.curr_pos ∧
    (load_memory b c).context = c.context.drop (c.context.length - (b.context_len - 1)) ∧
    (load_memory b c).context.length ≤ b.context_len - 1 := by
  refine ⟨rfl, rfl, rfl, rfl, rfl, rfl, rfl, ?_⟩
  show (c.context.drop (c.context.length - (b.context_len - 1))).length ≤ b.context_len - 1
  rw [List.length_drop]
  omega

/-- Claim C10: the read-only operations (`sample`, `recent_state`, `size`,
`sample_batch`, `sample_test_batch`) leave every field of the buffer
unchanged; in particular masking zeroes appear only in `sample`'s freshly
built result stack, never in the stored state array. -/
theorem read_ops_pure (b : ReplayMemory) (idx : Int) (draws : List Nat) :
    (sampleOp b idx).1 = b ∧
    (recentStateOp b).1 = b ∧
    (sizeOp b).1 = b ∧
    (sampleBatchOp b draws).1 = b ∧
    (sampleTestBatchOp b draws).1 = b ∧
    (sampleOp b idx).1.state = b.state :=
  ⟨rfl, rfl, rfl, rfl, rfl, rfl⟩

end ReplayMemorySpec
